import Mathlib

/-!
Verification of the django-stubs test driver
(`scripts/test_helpers/django_stubs_test_driver/`): a shallow embedding of
`definition.py` and `scenario.py`, with theorems about parametrization
expansion, skip evaluation, test naming, template rendering, mypy argument
derivation, settings-module synthesis and shared-cache eviction.
-/

/-- Values carried by a parametrization mapping or a template context: the
scalar YAML values the driver passes around (typed `object` on the Python
side). -/
inductive PyVal where
  | int (n : Int)
  | str (s : String)
  | bool (b : Bool)
  | none
deriving DecidableEq

/-- Rendering of a value by a Python f-string (`str(v)`). -/
def pyStr : PyVal → String
  | .int n => toString n
  | .str s => s
  | .bool b => if b then "True" else "False"
  | .none => "None"

/-- A parametrization mapping as an insertion-ordered association list,
mirroring a Python `dict` (`Mapping[str, object]`). -/
abbrev PMapping := List (String × PyVal)

/-- Boolean test that `pre` is a leading run of `l`; models both
`str.startswith` (on character lists) and `pathlib.PurePath.is_relative_to`
(on path-segment lists). -/
def listStartsWith {α : Type} [DecidableEq α] : List α → List α → Bool
  | [], _ => true
  | _ :: _, [] => false
  | a :: pre, b :: l => (a == b) && listStartsWith pre l

/-- Model of Python `str.startswith`. -/
def strStartsWith (s pre : String) : Bool := listStartsWith pre.data s.data

/-- Code-point lexicographic order on character lists, the order Python uses
to compare strings in `sorted`. -/
def charListLe : List Char → List Char → Bool
  | [], _ => true
  | _ :: _, [] => false
  | a :: as, b :: bs => if a = b then charListLe as bs else decide (a < b)

/-- Code-point lexicographic order on strings, matching Python `<=`. -/
def strLeB (a b : String) : Bool := charListLe a.data b.data

/-- Ordered insertion used by `sortStrings`. -/
def insertSorted (x : String) : List String → List String
  | [] => [x]
  | y :: ys => if strLeB x y then x :: y :: ys else y :: insertSorted x ys

/-- Model of Python `sorted` on a list of strings (ascending code-point
lexicographic order). -/
def sortStrings (l : List String) : List String := l.foldr insertSorted []

/-- The canonical key string of one parametrization mapping, as computed in
`_parse_parametrized` (`definition.py` line 24): the sorted keys joined with
a comma and a space. -/
def keysString (m : PMapping) : String :=
  String.intercalate ", " (sortStrings (m.map Prod.fst))

/-- The dict comprehension of `_parse_parametrized` (`definition.py`
line 32): keys starting with two underscores are dropped, the rest keep
their insertion order. -/
def stripUnderscore (m : PMapping) : PMapping :=
  m.filter fun kv => !strStartsWith kv.1 "__"

/-- One step of the `by_keys` defaultdict of `_parse_parametrized`:
`by_keys[keys].append(stripped)` appends to the entry of `keys`, creating
the entry at the end when it is missing. -/
def insertByKeys : List (String × List PMapping) → String → PMapping →
    List (String × List PMapping)
  | [], k, m => [(k, [m])]
  | (k2, ms) :: rest, k, m =>
    if k2 = k then (k2, ms ++ [m]) :: rest else (k2, ms) :: insertByKeys rest k m

/-- The main loop of `_parse_parametrized` (`definition.py` lines 23-32):
raise when `by_keys` is non-empty and the key string of the current mapping
is not already present, otherwise append the stripped mapping. -/
def parseLoop : List (String × List PMapping) → List PMapping →
    Except String (List (String × List PMapping))
  | byKeys, [] => Except.ok byKeys
  | byKeys, p :: rest =>
    if !byKeys.isEmpty && (byKeys.lookup (keysString p)).isNone then
      Except.error "All parametrized entries must have same keys."
    else
      parseLoop (insertByKeys byKeys (keysString p) (stripUnderscore p)) rest

/-- Shallow embedding of `_parse_parametrized` (`definition.py` lines
17-39): an empty sequence yields the single empty mapping; otherwise the
loop builds `by_keys`, the defensive length check runs, and the grouped
stripped mappings are yielded in order. -/
def parseParametrized (params : List PMapping) : Except String (List PMapping) :=
  if params.isEmpty then Except.ok [[]]
  else
    match parseLoop [] params with
    | Except.error e => Except.error e
    | Except.ok byKeys =>
      if byKeys.length ≠ 1 then
        Except.error "All parametrized entries must have the same keys"
      else Except.ok ((byKeys.map Prod.snd).flatten)

/-- The skip field of a case, `Union[bool, str]` in `definition.py`. -/
inductive SkipVal where
  | bool (b : Bool)
  | str (s : String)
deriving DecidableEq

/-- Shallow embedding of `_run_skip` (`definition.py` lines 42-50).  A
boolean is returned as is, the exact strings "True" and "False" map to the
booleans, and any other string is handed to `eval`; `evalExpr` abstracts
that call, already composed with the `bool(...)` truthiness coercion. -/
def _run_skip (evalExpr : String → Bool) : SkipVal → Bool
  | .bool b => b
  | .str s => if s = "True" then true else if s = "False" then false else evalExpr s

/-- The names bound in the globals dictionary of the `eval` call inside
`_run_skip` (`definition.py` line 50): `sys`, `os`, `pytest` and
`platform`, in that order. -/
def skipEvalGlobals : List String := ["sys", "os", "pytest", "platform"]

/-- The parametrization part of `ItemDefinition.from_yaml` (`definition.py`
lines 127-148): the parametrized mappings are expanded through
`_parse_parametrized`, then one clone per mapping is yielded exactly when
the skip predicate of the document evaluates to false.  Each yielded
variant is represented by its `item_params` mapping. -/
def from_yaml_variants (evalExpr : String → Bool) (skip : SkipVal)
    (params : List PMapping) : Except String (List PMapping) :=
  (parseParametrized params).map fun ps =>
    ps.filter fun _ => !_run_skip evalExpr skip

/-- Loop invariant of `_parse_parametrized`: once `by_keys` holds a single
group whose key string matches every remaining mapping, the loop succeeds
and appends each stripped mapping to that group. -/
theorem parseLoop_ok_of_same (k0 : String) (acc : List PMapping)
    (rest : List PMapping) (h : ∀ p ∈ rest, keysString p = k0) :
    parseLoop [(k0, acc)] rest = Except.ok [(k0, acc ++ rest.map stripUnderscore)] := by
  induction rest generalizing acc with
  | nil => simp [parseLoop]
  | cons p rest ih =>
    have hp : keysString p = k0 := h p (by simp)
    have hrest : ∀ q ∈ rest, keysString q = k0 := fun q hq => h q (by simp [hq])
    rw [parseLoop]
    simp only [hp, List.lookup, beq_self_eq_true, Option.isNone_some, Bool.and_false,
      Bool.false_eq_true, if_neg, ite_false]
    rw [insertByKeys, if_pos rfl]
    rw [ih (acc ++ [stripUnderscore p]) hrest]
    simp [List.append_assoc]

/-- Loop invariant of `_parse_parametrized`: a remaining mapping whose key
string differs from the installed group makes the loop raise. -/
theorem parseLoop_error_of_diff (k0 : String) (acc : List PMapping)
    (rest : List PMapping) (h : ∃ p ∈ rest, keysString p ≠ k0) :
    ∃ msg, parseLoop [(k0, acc)] rest = Except.error msg := by
  induction rest generalizing acc with
  | nil => simp at h
  | cons p rest ih =>
    by_cases hp : keysString p = k0
    · obtain ⟨q, hq, hqne⟩ := h
      rcases List.mem_cons.mp hq with rfl | hq2
      · exact absurd hp hqne
      · obtain ⟨msg, hmsg⟩ := ih (acc ++ [stripUnderscore p]) ⟨q, hq2, hqne⟩
        refine ⟨msg, ?_⟩
        rw [parseLoop]
        simp only [hp, List.lookup, beq_self_eq_true, Option.isNone_some, Bool.and_false,
          Bool.false_eq_true, if_neg, ite_false]
        rw [insertByKeys, if_pos rfl]
        exact hmsg
    · refine ⟨"All parametrized entries must have same keys.", ?_⟩
      rw [parseLoop]
      have : (List.lookup (keysString p) [(k0, acc)]).isNone = true := by
        simp [List.lookup, beq_eq_false_iff_ne.mpr hp]
      simp [this]

/-- When every mapping of a non-empty group shares one key string,
`_parse_parametrized` succeeds and yields the stripped mappings in input
order. -/
theorem parseParametrized_ok_of_same (p : PMapping) (rest : List PMapping)
    (h : ∀ q ∈ p :: rest, keysString q = keysString p) :
    parseParametrized (p :: rest) = Except.ok ((p :: rest).map stripUnderscore) := by
  have hrest : ∀ q ∈ rest, keysString q = keysString p := fun q hq => h q (by simp [hq])
  rw [parseParametrized]
  simp only [List.isEmpty_cons, Bool.false_eq_true, if_neg, ite_false]
  rw [parseLoop]
  simp only [List.isEmpty_nil, Bool.not_true, Bool.false_and, Bool.false_eq_true, ite_false]
  rw [insertByKeys]
  rw [parseLoop_ok_of_same (keysString p) [stripUnderscore p] rest hrest]
  simp

/-- When some mapping of a group has a different key string than the first
one, `_parse_parametrized` raises. -/
theorem parseParametrized_error_of_diff (p : PMapping) (rest : List PMapping)
    (h : ∃ q ∈ p :: rest, keysString q ≠ keysString p) :
    ∃ msg, parseParametrized (p :: rest) = Except.error msg := by
  obtain ⟨q, hq, hqne⟩ := h
  rcases List.mem_cons.mp hq with rfl | hq2
  · exact absurd rfl hqne
  · obtain ⟨msg, hmsg⟩ :=
      parseLoop_error_of_diff (keysString p) [stripUnderscore p] rest ⟨q, hq2, hqne⟩
    refine ⟨msg, ?_⟩
    rw [parseParametrized]
    simp only [List.isEmpty_cons, Bool.false_eq_true, if_neg, ite_false]
    rw [parseLoop]
    simp only [List.isEmpty_nil, Bool.not_true, Bool.false_and, Bool.false_eq_true, ite_false]
    rw [insertByKeys]
    rw [hmsg]

/-- The keys of a stripped mapping are the non-double-underscore keys of the
original, in input order. -/
theorem stripUnderscore_keys (m : PMapping) :
    (stripUnderscore m).map Prod.fst
      = (m.map Prod.fst).filter fun k => !strStartsWith k "__" := by
  induction m with
  | nil => rfl
  | cons kv rest ih =>
    by_cases hkv : strStartsWith kv.1 "__" = true
    · simp [stripUnderscore, List.filter, hkv] at ih ⊢
      exact ih
    · simp only [Bool.not_eq_true] at hkv
      simp [stripUnderscore, List.filter, hkv] at ih ⊢
      exact ih

/-- A mapped list is pointwise related to its source list. -/
theorem forall2_map_left {α β : Type} (R : α → β → Prop) (f : β → α) (l : List β)
    (h : ∀ a ∈ l, R (f a) a) : List.Forall₂ R (l.map f) l := by
  induction l with
  | nil => exact List.Forall₂.nil
  | cons b rest ih =>
    exact List.Forall₂.cons (h b (by simp)) (ih fun a ha => h a (by simp [ha]))

/-- C1 (amended to non-empty groups): for every non-empty sequence of
parametrization mappings, if two mappings have different key sets (compared
as sorted key strings) compilation raises and yields no variants, and if
all key sets are identical the number of yielded non-skipped variants
equals the number of mappings whose skip predicate evaluates to false. -/
theorem c1_parametrized_variant_count (evalExpr : String → Bool) (skip : SkipVal)
    (params : List PMapping) (hne : params ≠ []) :
    ((∃ p ∈ params, ∃ q ∈ params, keysString p ≠ keysString q) →
      ∃ msg, from_yaml_variants evalExpr skip params = Except.error msg) ∧
    ((∀ p ∈ params, ∀ q ∈ params, keysString p = keysString q) →
      ∃ l, from_yaml_variants evalExpr skip params = Except.ok l ∧
        l.length = (params.filter fun _ => !_run_skip evalExpr skip).length) := by
  match params, hne with
  | p :: rest, _ =>
    constructor
    · rintro ⟨a, ha, b, hb, hab⟩
      have hdiff : ∃ q ∈ p :: rest, keysString q ≠ keysString p := by
        by_cases hap : keysString a = keysString p
        · exact ⟨b, hb, fun hbp => hab (hap.trans hbp.symm)⟩
        · exact ⟨a, ha, hap⟩
      obtain ⟨msg, hmsg⟩ := parseParametrized_error_of_diff p rest hdiff
      exact ⟨msg, by simp [from_yaml_variants, hmsg, Except.map]⟩
    · intro h
      have h2 : ∀ q ∈ p :: rest, keysString q = keysString p :=
        fun q hq => h q hq p (by simp)
      have hok := parseParametrized_ok_of_same p rest h2
      refine ⟨((p :: rest).map stripUnderscore).filter fun _ => !_run_skip evalExpr skip,
        by simp [from_yaml_variants, hok, Except.map], ?_⟩
      cases hs : _run_skip evalExpr skip <;> simp [hs]

/-- Witness for C1: a two-mapping group with identical key sets and a
non-skipping predicate yields exactly two variants. -/
theorem c1_parametrized_variant_count_witness :
    (∀ p ∈ ([[("a", PyVal.int 1)], [("a", PyVal.int 2)]] : List PMapping),
      ∀ q ∈ ([[("a", PyVal.int 1)], [("a", PyVal.int 2)]] : List PMapping),
        keysString p = keysString q) ∧
    ∃ l, from_yaml_variants (fun _ => true) (SkipVal.str "False")
        [[("a", PyVal.int 1)], [("a", PyVal.int 2)]] = Except.ok l ∧
      l.length = (([[("a", PyVal.int 1)], [("a", PyVal.int 2)]] : List PMapping).filter
        fun _ => !_run_skip (fun _ => true) (SkipVal.str "False")).length :=
  ⟨by decide,
    (c1_parametrized_variant_count (fun _ => true) (SkipVal.str "False")
      [[("a", PyVal.int 1)], [("a", PyVal.int 2)]] (by decide)).2 (by decide)⟩

/-- C1 counterexample: for the empty mapping sequence the compiler yields
one variant with empty `item_params` while zero mappings have a false skip
predicate, so the variant count differs from the mapping count. -/
theorem c1_empty_group_counterexample :
    (from_yaml_variants (fun _ => true) (SkipVal.bool false) []).toOption.map List.length
      ≠ some ((([] : List PMapping).filter
          fun _ => !_run_skip (fun _ => true) (SkipVal.bool false)).length) := by
  decide

/-- C2 (amended to four symbols): a boolean skip literal is returned
directly, the strings "True" and "False" map to the booleans, any other
string is evaluated as a boolean expression whose truthiness decides the
skip, and the restricted namespace of that evaluation exposes exactly the
four symbols `sys`, `os`, `pytest` and `platform`. -/
theorem c2_skip_namespace (evalExpr : String → Bool) :
    (∀ b, _run_skip evalExpr (SkipVal.bool b) = b) ∧
    _run_skip evalExpr (SkipVal.str "True") = true ∧
    _run_skip evalExpr (SkipVal.str "False") = false ∧
    (∀ s, s ≠ "True" → s ≠ "False" → _run_skip evalExpr (SkipVal.str s) = evalExpr s) ∧
    skipEvalGlobals = ["sys", "os", "pytest", "platform"] := by
  refine ⟨fun b => rfl, by simp [_run_skip], by simp [_run_skip], fun s h1 h2 => ?_, rfl⟩
  simp [_run_skip, h1, h2]

/-- Witness for C2: a string that is neither "True" nor "False" is decided
by the abstracted evaluation. -/
theorem c2_skip_namespace_witness :
    ("1 == 2" : String) ≠ "True" ∧ ("1 == 2" : String) ≠ "False" ∧
    _run_skip (fun _ => false) (SkipVal.str "1 == 2") = false :=
  ⟨by decide, by decide,
    (c2_skip_namespace (fun _ => false)).2.2.2.1 "1 == 2" (by decide) (by decide)⟩

/-- C2 counterexample: the eval globals of `_run_skip` bind four names, not
three; in particular `platform` is bound in addition to `sys`, `os` and
`pytest`. -/
theorem c2_three_symbols_counterexample :
    skipEvalGlobals.length ≠ 3 ∧ "platform" ∈ skipEvalGlobals := by decide

/-- C8 (amended to double underscore): for every valid parametrization
group, each yielded variant has an `item_params` holding exactly the keys of
its mapping that do not start with two underscores, in input order; a key
starting with a single underscore only is kept. -/
theorem c8_underscore_keys (params : List PMapping) (hne : params ≠ [])
    (hkeys : ∀ p ∈ params, ∀ q ∈ params, keysString p = keysString q) :
    ∃ l, parseParametrized params = Except.ok l ∧
      List.Forall₂ (fun (v p : PMapping) =>
        v.map Prod.fst = (p.map Prod.fst).filter fun k => !strStartsWith k "__") l params := by
  match params, hne with
  | p :: rest, _ =>
    have h2 : ∀ q ∈ p :: rest, keysString q = keysString p :=
      fun q hq => hkeys q hq p (by simp)
    refine ⟨(p :: rest).map stripUnderscore, parseParametrized_ok_of_same p rest h2, ?_⟩
    exact forall2_map_left _ _ _ fun a _ => stripUnderscore_keys a

/-- Witness for C8: a mapping with one double-underscore key and one plain
key yields a variant holding only the plain key. -/
theorem c8_underscore_keys_witness :
    (parseParametrized [[("__c", PyVal.int 1), ("a", PyVal.int 2)]]).toOption
      = some [[("a", PyVal.int 2)]] ∧
    ∃ l, parseParametrized [[("__c", PyVal.int 1), ("a", PyVal.int 2)]] = Except.ok l ∧
      List.Forall₂ (fun (v p : PMapping) =>
        v.map Prod.fst = (p.map Prod.fst).filter fun k => !strStartsWith k "__") l
        [[("__c", PyVal.int 1), ("a", PyVal.int 2)]] :=
  ⟨by decide, c8_underscore_keys [[("__c", PyVal.int 1), ("a", PyVal.int 2)]]
    (by decide) (by decide)⟩

/-- C8 counterexample: a key starting with a single underscore is kept by
the code, although it starts with an underscore, so the claim that every
underscore-prefixed key is stripped fails at the mapping with key "_a". -/
theorem c8_single_underscore_counterexample :
    (parseParametrized [[("_a", PyVal.int 1)]]).toOption = some [[("_a", PyVal.int 1)]] ∧
    strStartsWith "_a" "_" = true := by decide

/-- Shallow embedding of `ItemDefinition.test_name` (`definition.py` lines
150-159): the case name alone when `item_params` is empty, otherwise the
case name followed by the bracketed comma-joined `key=value` pairs in
insertion order, each value rendered by an f-string. -/
def test_name (caseName : String) (itemParams : PMapping) : String :=
  let suffix :=
    if itemParams.isEmpty then ""
    else "[" ++ String.intercalate "," (itemParams.map fun kv => kv.1 ++ "=" ++ pyStr kv.2) ++ "]"
  caseName ++ suffix

/-- C9: the externally visible test name equals the case name alone when
`item_params` is empty, and otherwise equals the case name followed by the
bracketed `key=value` pairs in insertion order with each value in its plain
string form. -/
theorem c9_test_name (caseName : String) (itemParams : PMapping) :
    (itemParams = [] → test_name caseName itemParams = caseName) ∧
    (itemParams ≠ [] → test_name caseName itemParams =
      caseName ++ "[" ++
        String.intercalate "," (itemParams.map fun kv => kv.1 ++ "=" ++ pyStr kv.2) ++ "]") := by
  constructor
  · rintro rfl
    simp [test_name]
  · intro h
    rw [test_name]
    simp only [List.isEmpty_eq_true]
    rw [if_neg h]
    simp [String.append_assoc]

/-- Witness for C9: the case "foo" with `item_params` mapping a to 1 and b
to "x" is named "foo[a=1,b=x]". -/
theorem c9_test_name_witness :
    ([("a", PyVal.int 1), ("b", PyVal.str "x")] : PMapping) ≠ [] ∧
    test_name "foo" [("a", PyVal.int 1), ("b", PyVal.str "x")] = "foo[a=1,b=x]" :=
  ⟨by decide, by
    rw [(c9_test_name "foo" [("a", PyVal.int 1), ("b", PyVal.str "x")]).2 (by decide)]
    decide⟩

/-- The default jinja2 `variable_start_string` of the rendering environment
built at `scenario.py` line 20. -/
def variableStartString : String := "\x7b\x7b"

/-- Boolean substring occurrence on character lists: true when `pat` occurs
contiguously in the list.  Models the Python `in` operator on strings. -/
def occursChars (pat : List Char) : List Char → Bool
  | [] => pat.isEmpty
  | c :: cs => listStartsWith pat (c :: cs) || occursChars pat cs

/-- Model of the Python substring test `pat in s`. -/
def occursStr (pat s : String) : Bool := occursChars pat.data s.data

/-- Replacement of values for the rendering context, from the dict
comprehension at `scenario.py` line 265: `None` becomes the string "None",
every other value is passed unchanged. -/
def noneToStrVal : PyVal → PyVal
  | .none => .str "None"
  | v => v

/-- Shallow embedding of `ScenarioBuilder.render_template` (`scenario.py`
lines 262-267).  The jinja2 engine itself is an external collaborator and
is abstracted by `jinjaRender`; the embedding keeps the guard on the
variable start marker and the `None`-to-"None" context transform. -/
def render_template (jinjaRender : String → PMapping → String)
    (template : String) (data : PMapping) : String :=
  if occursStr variableStartString template then
    jinjaRender template (data.map fun kv => (kv.1, noneToStrVal kv.2))
  else template

/-- C10: a template without the placeholder start marker is returned
unchanged; when the marker is present the template is rendered with a
context in which every `None`-valued parameter is replaced by the string
"None". -/
theorem c10_render_template (jinjaRender : String → PMapping → String)
    (template : String) (data : PMapping) :
    (occursStr variableStartString template = false →
      render_template jinjaRender template data = template) ∧
    (occursStr variableStartString template = true →
      render_template jinjaRender template data
        = jinjaRender template (data.map fun kv => (kv.1, noneToStrVal kv.2)) ∧
      ∀ kv ∈ data, kv.2 = PyVal.none →
        (kv.1, PyVal.str "None") ∈ data.map fun kv => (kv.1, noneToStrVal kv.2)) := by
  constructor
  · intro h
    simp [render_template, h]
  · intro h
    refine ⟨by simp [render_template, h], fun kv hkv hnone => ?_⟩
    have : (kv.1, noneToStrVal kv.2) ∈ data.map fun kv => (kv.1, noneToStrVal kv.2) :=
      List.mem_map_of_mem _ hkv
    rwa [hnone] at this

/-- Witness for C10: a template with no marker is untouched, and a marker
template with a `None` parameter gets "None" in its context. -/
theorem c10_render_template_witness :
    occursStr variableStartString "plain text" = false ∧
    render_template (fun t _ => t ++ "!") "plain text" [("a", PyVal.none)] = "plain text" :=
  ⟨by decide,
    (c10_render_template (fun t _ => t ++ "!") "plain text" [("a", PyVal.none)]).1 (by decide)⟩

/-- The framework application that must always be installed, from
`scenario.py` line 130. -/
def contenttypesApp : String := "django.contrib.contenttypes"

/-- Shallow embedding of `change_installed_apps` (`scenario.py` lines
127-134): the declared `installed_apps` of the scenario get the
contenttypes app prepended when absent; the `values` argument, holding the
pre-existing entries of the list literal being edited, is ignored by the
source, and the final `isinstance(app, str)` filter is the identity on the
string-typed list. -/
def change_installed_apps (installedApps : List String) (values : List String) :
    List String :=
  if contenttypesApp ∈ installedApps then installedApps
  else contenttypesApp :: installedApps

/-- C7 (amended): the applications-list edit replaces the list wholesale:
its result is the declared applications with the contenttypes app prepended
when not already declared (when declared it keeps its declared position),
independent of the pre-existing entries, which are discarded; base list []
with declared apps ["a.app"] yields ["django.contrib.contenttypes",
"a.app"]. -/
theorem c7_installed_apps (installedApps values : List String) :
    change_installed_apps installedApps values = change_installed_apps installedApps [] ∧
    (contenttypesApp ∉ installedApps →
      change_installed_apps installedApps values = contenttypesApp :: installedApps) ∧
    (contenttypesApp ∈ installedApps →
      change_installed_apps installedApps values = installedApps) := by
  refine ⟨rfl, fun h => ?_, fun h => ?_⟩
  · simp [change_installed_apps, h]
  · simp [change_installed_apps, h]

/-- Witness for C7: the empty base list with declared apps ["a.app"]
produces the contenttypes app followed by "a.app". -/
theorem c7_installed_apps_witness :
    contenttypesApp ∉ (["a.app"] : List String) ∧
    change_installed_apps ["a.app"] [] = ["django.contrib.contenttypes", "a.app"] :=
  ⟨by decide, (c7_installed_apps ["a.app"] []).2.1 (by decide)⟩

/-- C7 counterexample: a pre-existing unrelated entry "x.y" of the original
list is not preserved by the edit, contradicting the claim that
pre-existing unrelated entries survive. -/
theorem c7_preexisting_entries_counterexample :
    "x.y" ∈ (["x.y"] : List String) ∧
    "x.y" ∉ change_installed_apps ["a.app"] ["x.y"] := by decide

/-- Removal of the `--cache-dir` pair in `ScenarioRunner._adjust_mypy_args`
(`scenario.py` lines 217-221): `args.index("--cache-dir")` followed by two
`args.pop(cd_idx)` calls when a value follows the flag; when the flag is
absent, or is the final element so that no value follows it, the list is
unchanged. -/
def popCacheDirPair : List String → List String
  | [] => []
  | x :: rest =>
    if x = "--cache-dir" then
      match rest with
      | [] => x :: rest
      | _ :: rest2 => rest2
    else x :: popCacheDirPair rest

/-- The platform-dependent null cache-dir target of `_adjust_mypy_args`
(`scenario.py` lines 230-233): "nul" when `os.name` is "nt", "/dev/null"
otherwise. -/
def nullCacheDirTarget (osName : String) : String :=
  if osName = "nt" then "nul" else "/dev/null"

/-- Shallow embedding of `ScenarioRunner._adjust_mypy_args` (`scenario.py`
lines 212-244).  Inputs are the `disable_cache` toggle of the scenario, the
optional shared cache root, whether the program runner is a daemon,
`os.name`, the starting argument list and the starting `do_followup`;
output is the final argument list and `do_followup`. -/
def _adjust_mypy_args (disableCache : Bool) (sharedCacheDir : Option String)
    (isDaemon : Bool) (osName : String) (args : List String) (doFollowup : Bool) :
    List String × Bool :=
  let args1 := if disableCache || sharedCacheDir.isSome then popCacheDirPair args else args
  if disableCache then
    let args2 :=
      if !isDaemon then
        let a := if "--incremental" ∈ args1 then args1.erase "--incremental" else args1
        if "--no-incremental" ∉ a then a ++ ["--no-incremental"] else a
      else args1
    (args2 ++ ["--cache-dir", nullCacheDirTarget osName], false)
  else
    match sharedCacheDir with
    | some root =>
      let args2 :=
        if !isDaemon then
          let a := if "--incremental" ∉ args1 then args1 ++ ["--incremental"] else args1
          if "--no-incremental" ∈ a then a.erase "--no-incremental" else a
        else args1
      (args2 ++ ["--cache-dir", root], doFollowup)
    | Option.none => (args1, doFollowup)

/-- The function `popCacheDirPair` only drops elements of its input. -/
theorem popCacheDirPair_sublist (args : List String) :
    List.Sublist (popCacheDirPair args) args := by
  induction args with
  | nil => simp [popCacheDirPair]
  | cons x rest ih =>
    rw [popCacheDirPair.eq_def]
    simp only []
    by_cases hx : x = "--cache-dir"
    · rw [if_pos hx]
      match rest with
      | [] => exact List.Sublist.refl _
      | y :: rest2 => exact (List.sublist_cons_self y rest2).trans (List.sublist_cons_self x _)
    · rw [if_neg hx]
      exact ih.cons₂ x

/-- When the input holds at most one "--cache-dir" and a value follows any
occurrence of it, `popCacheDirPair` removes the flag entirely. -/
theorem popCacheDirPair_not_mem (args : List String)
    (hcount : args.count "--cache-dir" ≤ 1)
    (hlast : "--cache-dir" ∈ args → args.getLast? ≠ some "--cache-dir") :
    "--cache-dir" ∉ popCacheDirPair args := by
  induction args with
  | nil => simp [popCacheDirPair]
  | cons x rest ih =>
    rw [popCacheDirPair.eq_def]
    simp only []
    by_cases hx : x = "--cache-dir"
    · rw [if_pos hx]
      subst hx
      have hrest : "--cache-dir" ∉ rest := by
        rw [List.count_cons_self] at hcount
        have : rest.count "--cache-dir" = 0 := by omega
        exact List.count_eq_zero.mp this
      match rest with
      | [] =>
        exact absurd (hlast (by simp) ) (by simp)
      | y :: rest2 =>
        exact fun hmem => hrest (List.mem_cons_of_mem y hmem)
    · rw [if_neg hx]
      intro hmem
      rcases List.mem_cons.mp hmem with heq | hmem2
      · exact hx heq.symm
      · refine absurd hmem2 (ih ?_ ?_)
        · rw [List.count_cons_of_ne (by simpa using fun h => hx h.symm)] at hcount
          exact hcount
        · intro hmemr
          cases rest with
          | nil => simp at hmemr
          | cons r rs =>
            have := hlast (List.mem_cons_of_mem x hmemr)
            rwa [List.getLast?_cons_cons] at this

/-- Core of the disabled-cache branch of `_adjust_mypy_args`: after the
incremental adjustments on a list free of "--cache-dir" holding at most one
"--incremental", the list contains "--no-incremental", contains no
"--incremental" and stays free of "--cache-dir". -/
theorem disabled_incremental_adjust (l a front : List String)
    (ha : a = if "--incremental" ∈ l then l.erase "--incremental" else l)
    (hfront : front = if "--no-incremental" ∉ a then a ++ ["--no-incremental"] else a)
    (hcd : "--cache-dir" ∉ l) (hinc : l.count "--incremental" ≤ 1) :
    "--cache-dir" ∉ front ∧ "--no-incremental" ∈ front ∧ "--incremental" ∉ front := by
  have hinca : "--incremental" ∉ a := by
    subst ha
    by_cases hm : "--incremental" ∈ l
    · rw [if_pos hm]
      have h1 : 1 ≤ l.count "--incremental" := List.count_pos_iff.mpr hm
      have h2 : List.count "--incremental" (l.erase "--incremental") = 0 := by
        rw [List.count_erase_self]
        omega
      exact List.count_eq_zero.mp h2
    · rwa [if_neg hm]
  have hcda : "--cache-dir" ∉ a := by
    subst ha
    by_cases hm : "--incremental" ∈ l
    · rw [if_pos hm]
      exact fun h => hcd (List.mem_of_mem_erase h)
    · rwa [if_neg hm]
  subst hfront
  by_cases hn : "--no-incremental" ∈ a
  · rw [if_neg (by simpa using hn)]
    exact ⟨hcda, hn, hinca⟩
  · rw [if_pos hn]
    refine ⟨?_, by simp, ?_⟩
    · intro h
      rcases List.mem_append.mp h with h2 | h2
      · exact hcda h2
      · simp at h2
    · intro h
      rcases List.mem_append.mp h with h2 | h2
      · exact hinca h2
      · simp at h2

/-- C3 (amended with at-most-one multiplicity of the affected flags): with
the disabled-cache toggle set and a non-daemon runner, for every argument
list holding "--cache-dir" at most once and never as a trailing flag, and
"--incremental" at most once, the derived list has the existing
"--cache-dir" pair removed, contains "--no-incremental", does not contain
"--incremental", ends with the platform-appropriate null "--cache-dir"
target ("nul" on Windows, "/dev/null" otherwise), and the follow-up pass is
suppressed. -/
theorem c3_disabled_cache_args (sharedCacheDir : Option String) (osName : String)
    (args : List String) (doFollowup : Bool)
    (hcd : args.count "--cache-dir" ≤ 1)
    (hlast : "--cache-dir" ∈ args → args.getLast? ≠ some "--cache-dir")
    (hinc : args.count "--incremental" ≤ 1) :
    ∃ front, _adjust_mypy_args true sharedCacheDir false osName args doFollowup
        = (front ++ ["--cache-dir", nullCacheDirTarget osName], false) ∧
      "--cache-dir" ∉ front ∧ "--no-incremental" ∈ front ∧ "--incremental" ∉ front := by
  have hcdp : "--cache-dir" ∉ popCacheDirPair args := popCacheDirPair_not_mem args hcd hlast
  have hincp : (popCacheDirPair args).count "--incremental" ≤ 1 :=
    le_trans ((popCacheDirPair_sublist args).count_le "--incremental") hinc
  obtain ⟨h1, h2, h3⟩ := disabled_incremental_adjust (popCacheDirPair args) _ _ rfl rfl hcdp hincp
  exact ⟨_, by simp [_adjust_mypy_args], h1, h2, h3⟩

/-- Witness for C3: the spec example, starting args ["--cache-dir", "/old"]
in disabled-cache mode on a posix platform. -/
theorem c3_disabled_cache_args_witness :
    (["--cache-dir", "/old"] : List String).count "--cache-dir" ≤ 1 ∧
    (["--cache-dir", "/old"] : List String).getLast? ≠ some "--cache-dir" ∧
    (["--cache-dir", "/old"] : List String).count "--incremental" ≤ 1 ∧
    ∃ front, _adjust_mypy_args true Option.none false "posix" ["--cache-dir", "/old"] true
        = (front ++ ["--cache-dir", nullCacheDirTarget "posix"], false) ∧
      "--cache-dir" ∉ front ∧ "--no-incremental" ∈ front ∧ "--incremental" ∉ front :=
  ⟨by decide, by decide, by decide,
    c3_disabled_cache_args Option.none "posix" ["--cache-dir", "/old"] true
      (by decide) (by decide) (by decide)⟩

/-- C3 counterexample: with "--incremental" occurring twice, only the first
occurrence is removed, so the derived list still contains "--incremental",
contradicting the claim for arbitrary argument lists. -/
theorem c3_duplicate_flag_counterexample :
    "--incremental" ∈
      (_adjust_mypy_args true Option.none false "posix"
        ["--incremental", "--incremental"] true).1 := by decide

/-- Core of the shared-cache branch of `_adjust_mypy_args`: after the
incremental adjustments on a list free of "--cache-dir" holding at most one
"--no-incremental", the list contains "--incremental", contains no
"--no-incremental" and stays free of "--cache-dir". -/
theorem shared_incremental_adjust (l a front : List String)
    (ha : a = if "--incremental" ∉ l then l ++ ["--incremental"] else l)
    (hfront : front = if "--no-incremental" ∈ a then a.erase "--no-incremental" else a)
    (hcd : "--cache-dir" ∉ l) (hni : l.count "--no-incremental" ≤ 1) :
    "--cache-dir" ∉ front ∧ "--incremental" ∈ front ∧ "--no-incremental" ∉ front := by
  have hinca : "--incremental" ∈ a := by
    subst ha
    by_cases hm : "--incremental" ∈ l
    · rwa [if_neg (by simpa using hm)]
    · rw [if_pos hm]
      simp
  have hcda : "--cache-dir" ∉ a := by
    subst ha
    by_cases hm : "--incremental" ∈ l
    · rwa [if_neg (by simpa using hm)]
    · rw [if_pos hm]
      intro h
      rcases List.mem_append.mp h with h2 | h2
      · exact hcd h2
      · simp at h2
  have hnia : a.count "--no-incremental" ≤ 1 := by
    subst ha
    by_cases hm : "--incremental" ∈ l
    · rwa [if_neg (by simpa using hm)]
    · rw [if_pos hm]
      rw [List.count_append]
      simpa using hni
  subst hfront
  by_cases hn : "--no-incremental" ∈ a
  · rw [if_pos hn]
    refine ⟨fun h => hcda (List.mem_of_mem_erase h),
      (List.mem_erase_of_ne (by decide)).mpr hinca, ?_⟩
    have h1 : 1 ≤ a.count "--no-incremental" := List.count_pos_iff.mpr hn
    have h2 : List.count "--no-incremental" (a.erase "--no-incremental") = 0 := by
      rw [List.count_erase_self]
      omega
    exact List.count_eq_zero.mp h2
  · rw [if_neg hn]
    exact ⟨hcda, hinca, hn⟩

/-- C4 (amended with at-most-one multiplicity of the affected flags): with
a shared cache attached, the disabled-cache toggle unset and a non-daemon
runner, for every argument list holding "--cache-dir" at most once and
never as a trailing flag, and "--no-incremental" at most once, the derived
list has the existing "--cache-dir" pair removed, contains "--incremental",
does not contain "--no-incremental" and ends with "--cache-dir" followed by
the shared cache root; and whenever both toggles are set the disabled-mode
derivation is applied, the shared root being ignored. -/
theorem c4_shared_cache_args (root : String) (osName : String)
    (args : List String) (doFollowup : Bool)
    (hcd : args.count "--cache-dir" ≤ 1)
    (hlast : "--cache-dir" ∈ args → args.getLast? ≠ some "--cache-dir")
    (hni : args.count "--no-incremental" ≤ 1) :
    (∃ front, _adjust_mypy_args false (some root) false osName args doFollowup
        = (front ++ ["--cache-dir", root], doFollowup) ∧
      "--cache-dir" ∉ front ∧ "--incremental" ∈ front ∧ "--no-incremental" ∉ front) ∧
    (∀ (root2 osName2 : String) (args2 : List String) (isDaemon2 doFollowup2 : Bool),
      _adjust_mypy_args true (some root2) isDaemon2 osName2 args2 doFollowup2
        = _adjust_mypy_args true Option.none isDaemon2 osName2 args2 doFollowup2) := by
  constructor
  · have hcdp : "--cache-dir" ∉ popCacheDirPair args := popCacheDirPair_not_mem args hcd hlast
    have hnip : (popCacheDirPair args).count "--no-incremental" ≤ 1 :=
      le_trans ((popCacheDirPair_sublist args).count_le "--no-incremental") hni
    obtain ⟨h1, h2, h3⟩ := shared_incremental_adjust (popCacheDirPair args) _ _ rfl rfl hcdp hnip
    exact ⟨_, by simp [_adjust_mypy_args], h1, h2, h3⟩
  · intro root2 osName2 args2 isDaemon2 doFollowup2
    simp [_adjust_mypy_args]

/-- Witness for C4: starting args ["--cache-dir", "/old"] with a shared
cache rooted at "/shared". -/
theorem c4_shared_cache_args_witness :
    (["--cache-dir", "/old"] : List String).count "--cache-dir" ≤ 1 ∧
    (["--cache-dir", "/old"] : List String).getLast? ≠ some "--cache-dir" ∧
    (["--cache-dir", "/old"] : List String).count "--no-incremental" ≤ 1 ∧
    ((∃ front, _adjust_mypy_args false (some "/shared") false "posix"
          ["--cache-dir", "/old"] true = (front ++ ["--cache-dir", "/shared"], true) ∧
        "--cache-dir" ∉ front ∧ "--incremental" ∈ front ∧ "--no-incremental" ∉ front) ∧
      (∀ (root2 osName2 : String) (args2 : List String) (isDaemon2 doFollowup2 : Bool),
        _adjust_mypy_args true (some root2) isDaemon2 osName2 args2 doFollowup2
          = _adjust_mypy_args true Option.none isDaemon2 osName2 args2 doFollowup2)) :=
  ⟨by decide, by decide, by decide,
    c4_shared_cache_args "/shared" "posix" ["--cache-dir", "/old"] true
      (by decide) (by decide) (by decide)⟩

/-- C4 counterexample: with "--no-incremental" occurring twice, only the
first occurrence is removed in shared mode, so the derived list still
contains "--no-incremental", contradicting the claim for arbitrary argument
lists. -/
theorem c4_duplicate_flag_counterexample :
    "--no-incremental" ∈
      (_adjust_mypy_args false (some "/shared") false "posix"
        ["--no-incremental", "--no-incremental"] true).1 := by decide

/-- Fueled worker for `replaceChars`: scans left to right, replacing each
leftmost non-overlapping occurrence of `pat` with `repl` and continuing
after the replacement, exactly the semantics of Python `str.replace`.  The
fuel only bounds the jump after a match; `replaceChars` passes enough. -/
def replaceCharsFuel (pat repl : List Char) : Nat → List Char → List Char
  | _, [] => []
  | 0, s => s
  | fuel + 1, c :: cs =>
    if listStartsWith pat (c :: cs) && !pat.isEmpty then
      repl ++ replaceCharsFuel pat repl fuel (List.drop (pat.length - 1) cs)
    else
      c :: replaceCharsFuel pat repl fuel cs

/-- Model of Python `str.replace` on character lists (all occurrences,
leftmost first, non-overlapping). -/
def replaceChars (pat repl s : List Char) : List Char :=
  replaceCharsFuel pat repl s.length s

/-- Model of Python `s.replace(pat, repl)`. -/
def strReplace (s pat repl : String) : String :=
  String.mk (replaceChars pat.data repl.data s.data)

/-- The fixed two-line monkeypatch snippet of
`Scenario.determine_django_settings_content` (`scenario.py` line 161). -/
def monkeypatchStr : String := "import django_stubs_ext\ndjango_stubs_ext.monkeypatch()\n"

/-- The monkeypatch stage of `Scenario.determine_django_settings_content`
(`scenario.py` lines 161-164): the snippet is removed wherever it occurs
and re-inserted at the top exactly when the monkeypatch toggle is set.  The
preceding AST edit and SECRET_KEY append are performed by the external
`pytest_typing_runner` collaborator and are outside this repository. -/
def applyMonkeypatch (toggle : Bool) (s : String) : String :=
  let cleaned := strReplace s monkeypatchStr ""
  if toggle then monkeypatchStr ++ cleaned else cleaned

/-- Unfolding of `replaceCharsFuel` at a successor fuel and a cons list. -/
theorem replaceCharsFuel_cons_succ (pat repl : List Char) (fuel : Nat) (c : Char)
    (cs : List Char) :
    replaceCharsFuel pat repl (fuel + 1) (c :: cs) =
      if listStartsWith pat (c :: cs) && !pat.isEmpty then
        repl ++ replaceCharsFuel pat repl fuel (List.drop (pat.length - 1) cs)
      else
        c :: replaceCharsFuel pat repl fuel cs := rfl

/-- A pattern with no occurrence in a character list is not replaced, for
any fuel. -/
theorem replaceCharsFuel_of_not_occurs (pat repl : List Char) (fuel : Nat)
    (s : List Char) (h : occursChars pat s = false) :
    replaceCharsFuel pat repl fuel s = s := by
  induction fuel generalizing s with
  | zero => cases s <;> rfl
  | succ fuel ih =>
    cases s with
    | nil => rfl
    | cons c cs =>
      rw [occursChars] at h
      have h1 : listStartsWith pat (c :: cs) = false := by
        cases hx : listStartsWith pat (c :: cs) <;> simp [hx] at h ⊢
      have h2 : occursChars pat cs = false := by
        cases hx : occursChars pat cs <;> simp [hx] at h ⊢
      rw [replaceCharsFuel_cons_succ, if_neg (by simp [h1])]
      rw [ih cs h2]

/-- Every list is a leading run of itself followed by anything. -/
theorem listStartsWith_append_self {α : Type} [DecidableEq α] (l t : List α) :
    listStartsWith l (l ++ t) = true := by
  induction l with
  | nil => rfl
  | cons a as ih => simp [listStartsWith, ih]

/-- Removing one leading copy of the pattern: replacing inside
`pat ++ t` with sufficient fuel replaces the leading occurrence and then
processes `t`, which is unchanged when the pattern no longer occurs. -/
theorem replaceChars_append_self (pat repl t : List Char) (hne : pat ≠ [])
    (h : occursChars pat t = false) :
    replaceChars pat repl (pat ++ t) = repl ++ t := by
  match pat, hne with
  | p :: ps, _ =>
    rw [replaceChars]
    have hlen : ((p :: ps) ++ t).length = (ps ++ t).length + 1 := by simp
    rw [hlen, List.cons_append, replaceCharsFuel_cons_succ]
    have hpre : listStartsWith (p :: ps) (p :: (ps ++ t)) = true := by
      rw [← List.cons_append]
      exact listStartsWith_append_self (p :: ps) t
    rw [if_pos (by simp [hpre])]
    have hdrop : List.drop ((p :: ps).length - 1) (ps ++ t) = t := by
      simp [List.drop_left]
    rw [hdrop]
    rw [replaceCharsFuel_of_not_occurs _ _ _ _ h]

/-- C6 (amended): settings synthesis is idempotent on every base text for
which removing the snippet once leaves no further occurrence of the snippet
(in particular on every text in which occurrences of the two-line snippet
do not recombine when deleted): running the monkeypatch stage twice yields
the same text as running it once, for either toggle value. -/
theorem c6_monkeypatch_idempotent (toggle : Bool) (s : String)
    (h : occursChars monkeypatchStr.data
      (replaceChars monkeypatchStr.data [] s.data) = false) :
    applyMonkeypatch toggle (applyMonkeypatch toggle s)
      = applyMonkeypatch toggle s := by
  have hdata : (strReplace s monkeypatchStr "").data
      = replaceChars monkeypatchStr.data [] s.data := rfl
  cases toggle with
  | false =>
    show strReplace (strReplace s monkeypatchStr "") monkeypatchStr "" = _
    rw [strReplace, hdata]
    rw [show replaceChars monkeypatchStr.data ("" : String).data
        (replaceChars monkeypatchStr.data [] s.data)
      = replaceCharsFuel monkeypatchStr.data []
        (replaceChars monkeypatchStr.data [] s.data).length
        (replaceChars monkeypatchStr.data [] s.data) from rfl]
    rw [replaceCharsFuel_of_not_occurs _ _ _ _ h]
    rfl
  | true =>
    show monkeypatchStr ++ strReplace (monkeypatchStr ++ strReplace s monkeypatchStr "")
        monkeypatchStr "" = _
    have happ : (monkeypatchStr ++ strReplace s monkeypatchStr "").data
        = monkeypatchStr.data ++ replaceChars monkeypatchStr.data [] s.data := by
      rw [← hdata]
      rfl
    rw [strReplace, happ]
    rw [show ("" : String).data = ([] : List Char) from rfl]
    rw [replaceChars_append_self _ _ _ (by decide) h]
    rfl

/-- Witness for C6: a plain settings text without the snippet satisfies the
no-recombination hypothesis, and toggling monkeypatch on it twice equals
toggling once. -/
theorem c6_monkeypatch_idempotent_witness :
    occursChars monkeypatchStr.data
      (replaceChars monkeypatchStr.data [] ("SECRET_KEY = 1\n" : String).data) = false ∧
    applyMonkeypatch true (applyMonkeypatch true "SECRET_KEY = 1\n")
      = applyMonkeypatch true "SECRET_KEY = 1\n" :=
  ⟨by decide, c6_monkeypatch_idempotent true "SECRET_KEY = 1\n" (by decide)⟩

/-- C6 counterexample: on a text formed by the first snippet line, the full
snippet, then the second snippet line, removing the snippet makes the outer
halves recombine into a fresh copy of the snippet, so a second synthesis
run changes the text again and idempotence fails as claimed for arbitrary
texts. -/
theorem c6_recombination_counterexample :
    applyMonkeypatch false (applyMonkeypatch false
        "import django_stubs_ext\nimport django_stubs_ext\ndjango_stubs_ext.monkeypatch()\ndjango_stubs_ext.monkeypatch()\n")
      ≠ applyMonkeypatch false
        "import django_stubs_ext\nimport django_stubs_ext\ndjango_stubs_ext.monkeypatch()\ndjango_stubs_ext.monkeypatch()\n" := by
  decide

/-- A filesystem path as a list of segments relative to the filesystem
root; the cache directory and all artifacts are expressed in this form. -/
abbrev FsPath := List String

/-- A snapshot of the relevant filesystem state: the set of regular files
and the set of directories, each as a list of paths. -/
structure FsState where
  files : List FsPath
  dirs : List FsPath
deriving DecidableEq

/-- The index of the last dot of a character list, if any; models
`str.rfind` restricted to the dot character. -/
def rfindDot (cs : List Char) : Option Nat :=
  ((List.range cs.length).filter fun i => cs.getD i ' ' == '.').getLast?

/-- Model of `pathlib.PurePath.stem` on a single path component: the name
up to its last dot, provided that dot is neither the first nor the last
character; otherwise the name is unchanged. -/
def pyStem (s : String) : String :=
  match rfindDot s.data with
  | some i => if 0 < i ∧ i + 1 < s.data.length then String.mk (s.data.take i) else s
  | Option.none => s

/-- Model of `pathlib.PurePath.with_suffix` on a single path component: the
stem with the new suffix appended (an empty suffix just drops the old
one). -/
def withSuffix (s suffix : String) : String := pyStem s ++ suffix

/-- Application of a function to the final segment of a path, as
`with_suffix` acts on the last component only. -/
def modifyLast (f : String → String) : FsPath → FsPath
  | [] => []
  | [x] => [f x]
  | x :: y :: rest => x :: modifyLast f (y :: rest)

/-- The base cache artifact path of `SharedCache.remove_cache_for`
(`scenario.py` line 43): `cache_dir / "<major>.<minor>" / path` with the
final extension stripped by `with_suffix("")`. -/
def cacheFilePath (cacheDir : FsPath) (ver : String) (path : FsPath) : FsPath :=
  modifyLast (fun n => withSuffix n "") (cacheDir ++ [ver] ++ path)

/-- Direct-children emptiness test of a directory, modelling
`list(parent_dir.iterdir())`: true when some file or directory lies
directly inside `d`. -/
def hasChild (fs : FsState) (d : FsPath) : Bool :=
  (fs.files.any fun e => decide (e ≠ [] ∧ e.dropLast = d)) ||
    (fs.dirs.any fun e => decide (e ≠ [] ∧ e.dropLast = d))

/-- The ancestors of a path, immediate parent first, down to the empty
(root) path; models `pathlib.PurePath.parents`. -/
def parentsOf (p : FsPath) : List FsPath :=
  (List.range p.length).reverse.map fun n => p.take n

/-- The directory-pruning loop of `SharedCache.remove_cache_for`
(`scenario.py` lines 51-61): walk the ancestors, break at the cache root or
outside it, skip missing directories, break at the first non-empty
directory, remove each empty one. -/
def evictDirs (root : FsPath) : FsState → List FsPath → FsState
  | fs, [] => fs
  | fs, d :: rest =>
    if d = root || !listStartsWith root d then fs
    else if d ∉ fs.dirs then evictDirs root fs rest
    else if hasChild fs d then fs
    else evictDirs root ⟨fs.files, fs.dirs.filter fun e => e ≠ d⟩ rest

/-- Shallow embedding of `SharedCache.remove_cache_for` (`scenario.py`
lines 42-61): unlink the `.data.json` and `.meta.json` artifacts (missing
files are a no-op, the unlink calls pass `missing_ok`), then prune newly
empty ancestor directories of the artifact base path. -/
def remove_cache_for (fs : FsState) (cacheDir : FsPath) (ver : String)
    (path : FsPath) : FsState :=
  let cacheFile := cacheFilePath cacheDir ver path
  let dataFile := modifyLast (fun n => withSuffix n ".data.json") cacheFile
  let metaFile := modifyLast (fun n => withSuffix n ".meta.json") cacheFile
  let files1 := (fs.files.filter fun e => e ≠ dataFile).filter fun e => e ≠ metaFile
  evictDirs cacheDir ⟨files1, fs.dirs⟩ (parentsOf cacheFile)

/-- The pruning loop never touches regular files. -/
theorem evictDirs_files (root : FsPath) (fs : FsState) (ds : List FsPath) :
    (evictDirs root fs ds).files = fs.files := by
  induction ds generalizing fs with
  | nil => rfl
  | cons d rest ih =>
    rw [evictDirs]
    by_cases h1 : (d = root || !listStartsWith root d) = true
    · rw [if_pos h1]
    · rw [if_neg h1]
      by_cases h2 : d ∉ fs.dirs
      · rw [if_pos h2, ih]
      · rw [if_neg h2]
        by_cases h3 : hasChild fs d = true
        · rw [if_pos h3]
        · rw [if_neg h3, ih]

/-- The pruning loop only removes directories. -/
theorem evictDirs_dirs_subset (root : FsPath) (fs : FsState) (ds : List FsPath)
    (d : FsPath) (h : d ∈ (evictDirs root fs ds).dirs) : d ∈ fs.dirs := by
  induction ds generalizing fs with
  | nil => exact h
  | cons e rest ih =>
    rw [evictDirs] at h
    by_cases h1 : (e = root || !listStartsWith root e) = true
    · rw [if_pos h1] at h; exact h
    · rw [if_neg h1] at h
      by_cases h2 : e ∉ fs.dirs
      · rw [if_pos h2] at h; exact ih _ h
      · rw [if_neg h2] at h
        by_cases h3 : hasChild fs e = true
        · rw [if_pos h3] at h; exact h
        · rw [if_neg h3] at h
          exact List.mem_of_mem_filter (ih _ h)

/-- A directory removed by the pruning loop is a walked strict descendant
of the root. -/
theorem evictDirs_removed (root : FsPath) (fs : FsState) (ds : List FsPath)
    (d : FsPath) (hmem : d ∈ fs.dirs) (hout : d ∉ (evictDirs root fs ds).dirs) :
    d ∈ ds ∧ d ≠ root ∧ listStartsWith root d = true := by
  induction ds generalizing fs with
  | nil => exact absurd hmem hout
  | cons e rest ih =>
    rw [evictDirs] at hout
    by_cases h1 : (e = root || !listStartsWith root e) = true
    · rw [if_pos h1] at hout; exact absurd hmem hout
    · rw [if_neg h1] at hout
      by_cases h2 : e ∉ fs.dirs
      · rw [if_pos h2] at hout
        obtain ⟨ha, hb, hc⟩ := ih _ hmem hout
        exact ⟨List.mem_cons_of_mem e ha, hb, hc⟩
      · rw [if_neg h2] at hout
        by_cases h3 : hasChild fs e = true
        · rw [if_pos h3] at hout; exact absurd hmem hout
        · rw [if_neg h3] at hout
          by_cases hde : d = e
          · subst hde
            simp only [Bool.or_eq_true, Bool.not_eq_true', decide_eq_true_eq] at h1
            push_neg at h1
            refine ⟨by simp, h1.1, ?_⟩
            cases hx : listStartsWith root d
            · exact absurd hx h1.2
            · rfl
          · have hmem2 : d ∈ fs.dirs.filter fun e2 => e2 ≠ e := by
              apply List.mem_filter.mpr
              exact ⟨hmem, by simpa using hde⟩
            obtain ⟨ha, hb, hc⟩ := ih ⟨fs.files, fs.dirs.filter fun e2 => e2 ≠ e⟩ hmem2 hout
            exact ⟨List.mem_cons_of_mem e ha, hb, hc⟩

/-- The root directory survives the pruning loop. -/
theorem evictDirs_root (root : FsPath) (fs : FsState) (ds : List FsPath) :
    root ∈ (evictDirs root fs ds).dirs ↔ root ∈ fs.dirs := by
  constructor
  · exact evictDirs_dirs_subset root fs ds root
  · intro h
    by_contra hout
    obtain ⟨_, hne, _⟩ := evictDirs_removed root fs ds root h hout
    exact hne rfl

/-- Emptiness is preserved under shrinking the filesystem: a directory with
no children keeps having none when files are unchanged and directories only
disappear. -/
theorem hasChild_mono (fs1 fs2 : FsState) (d : FsPath)
    (hfiles : fs2.files = fs1.files)
    (hdirs : ∀ e, e ∈ fs2.dirs → e ∈ fs1.dirs)
    (h : hasChild fs1 d = false) : hasChild fs2 d = false := by
  rw [hasChild] at h ⊢
  simp only [Bool.or_eq_false_iff, List.any_eq_false] at h ⊢
  obtain ⟨hf, hd⟩ := h
  refine ⟨?_, ?_⟩
  · intro e he
    exact hf e (by rwa [hfiles] at he)
  · intro e he
    exact hd e (hdirs e he)

/-- A directory removed by the pruning loop has no children in the final
state: every removal happened when the directory was empty, and the state
only shrinks afterwards. -/
theorem evictDirs_removed_empty (root : FsPath) (fs : FsState) (ds : List FsPath)
    (d : FsPath) (hmem : d ∈ fs.dirs) (hout : d ∉ (evictDirs root fs ds).dirs) :
    hasChild (evictDirs root fs ds) d = false := by
  induction ds generalizing fs with
  | nil => exact absurd hmem hout
  | cons e rest ih =>
    rw [evictDirs] at hout ⊢
    by_cases h1 : (e = root || !listStartsWith root e) = true
    · rw [if_pos h1] at hout ⊢; exact absurd hmem hout
    · rw [if_neg h1] at hout ⊢
      by_cases h2 : e ∉ fs.dirs
      · rw [if_pos h2] at hout ⊢; exact ih _ hmem hout
      · rw [if_neg h2] at hout ⊢
        by_cases h3 : hasChild fs e = true
        · rw [if_pos h3] at hout ⊢; exact absurd hmem hout
        · rw [if_neg h3] at hout ⊢
          by_cases hde : d = e
          · subst hde
            have hempty : hasChild (⟨fs.files, fs.dirs.filter fun e2 => e2 ≠ d⟩ : FsState) d
                = false := by
              refine hasChild_mono fs ⟨fs.files, fs.dirs.filter fun e2 => e2 ≠ d⟩ d rfl
                (fun e2 he2 => List.mem_of_mem_filter he2) ?_
              simpa using h3
            apply hasChild_mono _ _ d
            · exact evictDirs_files root _ rest
            · exact fun e2 he2 => evictDirs_dirs_subset root _ rest e2 he2
            · exact hempty
          · have hmem2 : d ∈ fs.dirs.filter fun e2 => e2 ≠ e := by
              apply List.mem_filter.mpr
              exact ⟨hmem, by simpa using hde⟩
            exact ih _ hmem2 hout

/-- Component form of `evictDirs_files`. -/
theorem evictDirsMk_files (root : FsPath) (F D : List FsPath) (ds : List FsPath) :
    (evictDirs root ⟨F, D⟩ ds).files = F := evictDirs_files root ⟨F, D⟩ ds

/-- Component form of `evictDirs_root`. -/
theorem evictDirsMk_root (root : FsPath) (F D : List FsPath) (ds : List FsPath) :
    root ∈ (evictDirs root ⟨F, D⟩ ds).dirs ↔ root ∈ D := evictDirs_root root ⟨F, D⟩ ds

/-- Component form of `evictDirs_dirs_subset`. -/
theorem evictDirsMk_dirs_subset (root : FsPath) (F D : List FsPath) (ds : List FsPath)
    (d : FsPath) (h : d ∈ (evictDirs root ⟨F, D⟩ ds).dirs) : d ∈ D :=
  evictDirs_dirs_subset root ⟨F, D⟩ ds d h

/-- Component form of `evictDirs_removed`. -/
theorem evictDirsMk_removed (root : FsPath) (F D : List FsPath) (ds : List FsPath)
    (d : FsPath) (hmem : d ∈ D) (hout : d ∉ (evictDirs root ⟨F, D⟩ ds).dirs) :
    d ∈ ds ∧ d ≠ root ∧ listStartsWith root d = true :=
  evictDirs_removed root ⟨F, D⟩ ds d hmem hout

/-- Component form of `evictDirs_removed_empty`. -/
theorem evictDirsMk_removed_empty (root : FsPath) (F D : List FsPath) (ds : List FsPath)
    (d : FsPath) (hmem : d ∈ D) (hout : d ∉ (evictDirs root ⟨F, D⟩ ds).dirs) :
    hasChild (evictDirs root ⟨F, D⟩ ds) d = false :=
  evictDirs_removed_empty root ⟨F, D⟩ ds d hmem hout

/-- C5 (amended): cache eviction removes exactly the two artifact files the
code derives (the base path with the final source extension stripped and
the remaining extension, if any, replaced by `.data.json` / `.meta.json`),
missing files being a no-op; afterwards only walked ancestors of the
artifact base strictly below the cache root may disappear, every removed
directory is childless in the final state, and the cache root itself is
never removed. -/
theorem c5_cache_eviction (fs : FsState) (cacheDir : FsPath) (ver : String)
    (path : FsPath) :
    (remove_cache_for fs cacheDir ver path).files
      = ((fs.files.filter fun e =>
            e ≠ modifyLast (fun n => withSuffix n ".data.json")
              (cacheFilePath cacheDir ver path)).filter
          fun e => e ≠ modifyLast (fun n => withSuffix n ".meta.json")
            (cacheFilePath cacheDir ver path)) ∧
    (cacheDir ∈ (remove_cache_for fs cacheDir ver path).dirs ↔ cacheDir ∈ fs.dirs) ∧
    (∀ d, d ∈ (remove_cache_for fs cacheDir ver path).dirs → d ∈ fs.dirs) ∧
    (∀ d, d ∈ fs.dirs → d ∉ (remove_cache_for fs cacheDir ver path).dirs →
      d ∈ parentsOf (cacheFilePath cacheDir ver path) ∧ d ≠ cacheDir ∧
      listStartsWith cacheDir d = true ∧
      hasChild (remove_cache_for fs cacheDir ver path) d = false) := by
  simp only [remove_cache_for]
  refine ⟨evictDirsMk_files _ _ _ _, evictDirsMk_root _ _ _ _,
    fun d hd => evictDirsMk_dirs_subset _ _ _ _ d hd, fun d hd hout => ?_⟩
  obtain ⟨hin, hne, hpre⟩ := evictDirsMk_removed cacheDir _ _ _ d hd hout
  exact ⟨hin, hne, hpre, evictDirsMk_removed_empty cacheDir _ _ _ d hd hout⟩

/-- Witness for C5: the spec example.  Under the root directory "root" with
version directory "3.12" and package directory "pkg" holding the artifact
pair for `pkg/mod.py`, eviction removes both artifacts and the now-empty
"pkg" and "3.12" directories while keeping "root"; the first conjunct
checks the resulting state concretely, the second applies the theorem. -/
theorem c5_cache_eviction_witness :
    (remove_cache_for
        ⟨[["root", "3.12", "pkg", "mod.data.json"], ["root", "3.12", "pkg", "mod.meta.json"]],
          [["root"], ["root", "3.12"], ["root", "3.12", "pkg"]]⟩
        ["root"] "3.12" ["pkg", "mod.py"]
      = ⟨[], [["root"]]⟩) ∧
    ((remove_cache_for
        ⟨[["root", "3.12", "pkg", "mod.data.json"], ["root", "3.12", "pkg", "mod.meta.json"]],
          [["root"], ["root", "3.12"], ["root", "3.12", "pkg"]]⟩
        ["root"] "3.12" ["pkg", "mod.py"]).files
      = ((([["root", "3.12", "pkg", "mod.data.json"],
            ["root", "3.12", "pkg", "mod.meta.json"]] : List FsPath).filter fun e =>
            e ≠ modifyLast (fun n => withSuffix n ".data.json")
              (cacheFilePath ["root"] "3.12" ["pkg", "mod.py"])).filter
          fun e => e ≠ modifyLast (fun n => withSuffix n ".meta.json")
            (cacheFilePath ["root"] "3.12" ["pkg", "mod.py"])) ∧
    (["root"] ∈ (remove_cache_for
        ⟨[["root", "3.12", "pkg", "mod.data.json"], ["root", "3.12", "pkg", "mod.meta.json"]],
          [["root"], ["root", "3.12"], ["root", "3.12", "pkg"]]⟩
        ["root"] "3.12" ["pkg", "mod.py"]).dirs ↔
      ["root"] ∈ ([["root"], ["root", "3.12"], ["root", "3.12", "pkg"]] : List FsPath)) ∧
    (∀ d, d ∈ (remove_cache_for
        ⟨[["root", "3.12", "pkg", "mod.data.json"], ["root", "3.12", "pkg", "mod.meta.json"]],
          [["root"], ["root", "3.12"], ["root", "3.12", "pkg"]]⟩
        ["root"] "3.12" ["pkg", "mod.py"]).dirs →
      d ∈ ([["root"], ["root", "3.12"], ["root", "3.12", "pkg"]] : List FsPath)) ∧
    (∀ d, d ∈ ([["root"], ["root", "3.12"], ["root", "3.12", "pkg"]] : List FsPath) →
      d ∉ (remove_cache_for
        ⟨[["root", "3.12", "pkg", "mod.data.json"], ["root", "3.12", "pkg", "mod.meta.json"]],
          [["root"], ["root", "3.12"], ["root", "3.12", "pkg"]]⟩
        ["root"] "3.12" ["pkg", "mod.py"]).dirs →
      d ∈ parentsOf (cacheFilePath ["root"] "3.12" ["pkg", "mod.py"]) ∧ d ≠ ["root"] ∧
      listStartsWith ["root"] d = true ∧
      hasChild (remove_cache_for
        ⟨[["root", "3.12", "pkg", "mod.data.json"], ["root", "3.12", "pkg", "mod.meta.json"]],
          [["root"], ["root", "3.12"], ["root", "3.12", "pkg"]]⟩
        ["root"] "3.12" ["pkg", "mod.py"]) d = false)) :=
  ⟨by decide,
    c5_cache_eviction
      ⟨[["root", "3.12", "pkg", "mod.data.json"], ["root", "3.12", "pkg", "mod.meta.json"]],
        [["root"], ["root", "3.12"], ["root", "3.12", "pkg"]]⟩
      ["root"] "3.12" ["pkg", "mod.py"]⟩

/-- C5 counterexample: for the double-extension source path "a.tar.gz" the
claim places the artifacts at the base path without its extension, that is
at "a.tar.data.json" and "a.tar.meta.json"; the code instead replaces the
remaining ".tar" extension, unlinking "a.data.json", so the file
"a.tar.data.json" survives eviction while the unrelated "a.data.json" is
removed. -/
theorem c5_artifact_suffix_counterexample :
    (remove_cache_for
        ⟨[["root", "3.12", "a.tar.data.json"], ["root", "3.12", "a.data.json"]],
          [["root"], ["root", "3.12"]]⟩
        ["root"] "3.12" ["a.tar.gz"]).files
      = [["root", "3.12", "a.tar.data.json"]] := by decide
